import Mathlib

/-!
Shallow embedding of `hash_cache` (src/src/lib.rs): a thread-safe TTL cache
`HashCache<K, T>` holding a `HashMap<K, (T, Instant)>` behind an `RwLock`,
with a fixed `Duration` ttl.  Time is modelled explicitly: an `Instant` is a
monotonic timestamp in nanoseconds, and every time-dependent operation takes
the current instant `now` as a parameter.  The store is modelled as a function
`K → Option (T × Instant)`; lock poisoning is modelled as a boolean component
of the cache state, and each public operation returns its result as
`Except CachePoisonedError _` paired with the successor state.
-/

/-- Rust `std::time::Duration`: whole seconds plus subsecond nanoseconds
(the invariant `nanos < 10^9` is maintained by `Duration.new`). -/
structure Duration where
  secs : Nat
  nanos : Nat
deriving DecidableEq

/-- Rust `Duration::new(secs, nanos)`: carries whole seconds out of `nanos`. -/
def Duration.new (secs nanos : Nat) : Duration :=
  { secs := secs + nanos / 1000000000, nanos := nanos % 1000000000 }

/-- Rust's derived `Ord` on `Duration`: lexicographic on (secs, nanos);
this is the comparison performed by `created.elapsed() <= self.duration`. -/
def Duration.ble (a b : Duration) : Bool :=
  decide (a.secs < b.secs) || (decide (a.secs = b.secs) && decide (a.nanos ≤ b.nanos))

/-- A monotonic timestamp (`std::time::Instant`), in nanoseconds. -/
abbrev Instant := Nat

/-- Rust `created.elapsed()` evaluated when the clock reads `now`:
the duration from `created` to `now` (normalised seconds/nanoseconds). -/
def Instant.elapsed (created now : Instant) : Duration :=
  { secs := (now - created) / 1000000000, nanos := (now - created) % 1000000000 }

/-!
Model of the `f64` arithmetic in `HashCache::ignore_dur`:
`self.duration.as_secs() as f64 + self.duration.subsec_nanos() as f64 == 0.0`.
An IEEE-754 binary64 value produced from a `u64`/`u32` is the input rounded to
53 significant bits, round-to-nearest with ties to even; the `+` rounds the
exact sum the same way.  For the naturals in play (≤ 2^64 + 2^32) every
intermediate value is a natural number, so the computation is modelled exactly
on `Nat`.
-/

/-- Round `n` to the nearest multiple of `2 ^ k`, ties to even. -/
def roundNearEven (n k : Nat) : Nat :=
  if 2 * (n % 2 ^ k) < 2 ^ k then n / 2 ^ k * 2 ^ k
  else if 2 * (n % 2 ^ k) > 2 ^ k then (n / 2 ^ k + 1) * 2 ^ k
  else if n / 2 ^ k % 2 = 0 then n / 2 ^ k * 2 ^ k
  else (n / 2 ^ k + 1) * 2 ^ k

/-- The binary64 value of the natural number `n` (round to 53 significant
bits, nearest, ties to even); exact below `2 ^ 53`. -/
def natToF64 (n : Nat) : Nat :=
  if n < 2 ^ 53 then n else roundNearEven n (Nat.log 2 n + 1 - 53)

/-- Binary64 addition of two (binary64-valued) naturals: round the exact sum. -/
def f64add (a b : Nat) : Nat := natToF64 (a + b)

/-- Rust `CachePoisonedError(&'static str)`: the typed lock-poisoning error. -/
structure CachePoisonedError where
  msg : String
deriving DecidableEq

/-- The message of the error built in `HashCache::reader`. -/
def readGuardMsg : String :=
  "Failed to acquire read guard for cache failed due to poisoning"

/-- The message of the error built in `HashCache::writer`. -/
def writeGuardMsg : String :=
  "Failed to acquire write guard for cache failed due to poisoning"

/-- Rust `CacheResult<T> = Result<T, CachePoisonedError>`. -/
abbrev CacheResult (T : Type) := Except CachePoisonedError T

/-- `HashCache<K, T>`: the store (a `HashMap<K, (T, Instant)>` behind an
`RwLock`, modelled as a function), the fixed ttl `duration`, and the poison
state of the lock. -/
structure HashCache (K T : Type) where
  cache : K → Option (T × Instant)
  duration : Duration
  poisoned : Bool

/-- `HashCache::new(duration)`: empty store, given ttl, healthy lock. -/
def HashCache.new {K T : Type} (duration : Duration) : HashCache K T :=
  { cache := fun _ => none, duration := duration, poisoned := false }

/-- `impl From<HashMap<K, (T, Instant)>> for HashCache<K, T>`: wraps the map
with `duration: Duration::new(0, 0)`. -/
def HashCache.fromMap {K T : Type} (map : K → Option (T × Instant)) : HashCache K T :=
  { cache := map, duration := Duration.new 0 0, poisoned := false }

/-- `HashCache::reader`: acquire the read guard, converting poisoning into
`CachePoisonedError`. The guard is the store snapshot. -/
def HashCache.reader {K T : Type} (c : HashCache K T) :
    CacheResult (K → Option (T × Instant)) :=
  if c.poisoned then .error ⟨readGuardMsg⟩ else .ok c.cache

/-- `HashCache::writer`: acquire the write guard, converting poisoning into
`CachePoisonedError`. -/
def HashCache.writer {K T : Type} (c : HashCache K T) :
    CacheResult (K → Option (T × Instant)) :=
  if c.poisoned then .error ⟨writeGuardMsg⟩ else .ok c.cache

/-- `HashCache::ignore_dur`:
`self.duration.as_secs() as f64 + self.duration.subsec_nanos() as f64 == 0.0`. -/
def HashCache.ignore_dur {K T : Type} (c : HashCache K T) : Bool :=
  f64add (natToF64 c.duration.secs) (natToF64 c.duration.nanos) == 0

/-- `HashCache::get(&self, key)`: look the key up through the read guard and
return a clone of the value only if the zero-ttl sentinel is active or the
elapsed age is within the ttl.  `&self`: the state is returned unchanged. -/
def HashCache.get {K T : Type} (c : HashCache K T) (now : Instant) (key : K) :
    CacheResult (Option T) × HashCache K T :=
  (Except.map (fun reader =>
    match reader key with
    | some (val, created) =>
      if c.ignore_dur || Duration.ble (Instant.elapsed created now) c.duration then
        some val
      else
        none
    | none => none) c.reader, c)

/-- `HashCache::get_all(&self)`: scan the full store through the read guard
and build a fresh map of the entries passing the same expiry test as `get`.
`&self`: the state is returned unchanged. -/
def HashCache.get_all {K T : Type} (c : HashCache K T) (now : Instant) :
    CacheResult (K → Option T) × HashCache K T :=
  (Except.map (fun reader => fun k =>
    match reader k with
    | some (f, created) =>
      if c.ignore_dur || Duration.ble (Instant.elapsed created now) c.duration then
        some f
      else
        none
    | none => none) c.reader, c)

/-- `HashCache::insert(&self, key, val)`: through the write guard, store a
clone of `val` stamped `Instant::now()`, unconditionally overwriting; return
the previous value if any (`HashMap::insert` semantics). -/
def HashCache.insert {K T : Type} [DecidableEq K] (c : HashCache K T)
    (now : Instant) (key : K) (val : T) :
    CacheResult (Option T) × HashCache K T :=
  match c.writer with
  | .error e => (.error e, c)
  | .ok w =>
    (.ok (Option.map Prod.fst (w key)),
     { c with cache := fun k => if k = key then some (val, now) else w k })

/-- `HashCache::remove(&self, key)`: through the write guard, delete the
entry if present and return its value. -/
def HashCache.remove {K T : Type} [DecidableEq K] (c : HashCache K T) (key : K) :
    CacheResult (Option T) × HashCache K T :=
  match c.writer with
  | .error e => (.error e, c)
  | .ok w =>
    (.ok (Option.map Prod.fst (w key)),
     { c with cache := fun k => if k = key then none else w k })

/-- `HashCache::clear(&self)`: through the write guard, remove all entries. -/
def HashCache.clear {K T : Type} (c : HashCache K T) :
    CacheResult Unit × HashCache K T :=
  match c.writer with
  | .error e => (.error e, c)
  | .ok _ => (.ok (), { c with cache := fun _ => none })

/-! ### Helper lemmas -/

theorem roundNearEven_pos (n k : Nat) (h : 2 ^ k ≤ n) : 0 < roundNearEven n k := by
  have hu : 0 < 2 ^ k := Nat.pos_pow_of_pos k (by norm_num)
  have hq : 1 ≤ n / 2 ^ k := (Nat.one_le_div_iff hu).mpr h
  unfold roundNearEven
  split
  · exact Nat.mul_pos hq hu
  · split
    · exact Nat.mul_pos (by omega) hu
    · split
      · exact Nat.mul_pos hq hu
      · exact Nat.mul_pos (by omega) hu

theorem natToF64_eq_zero_iff (n : Nat) : natToF64 n = 0 ↔ n = 0 := by
  constructor
  · intro h
    by_contra hn
    unfold natToF64 at h
    split at h
    · exact hn h
    · rename_i hge
      push_neg at hge
      have hk : 2 ^ (Nat.log 2 n + 1 - 53) ≤ n := by
        calc 2 ^ (Nat.log 2 n + 1 - 53) ≤ 2 ^ Nat.log 2 n :=
              Nat.pow_le_pow_right (by norm_num) (by omega)
          _ ≤ n := Nat.pow_log_le_self 2 (by omega)
      exact absurd h (Nat.ne_of_gt (roundNearEven_pos _ _ hk))
  · intro h
    subst h
    norm_num [natToF64]

theorem ignore_dur_iff {K T : Type} (c : HashCache K T) :
    c.ignore_dur = true ↔ (c.duration.secs = 0 ∧ c.duration.nanos = 0) := by
  unfold HashCache.ignore_dur f64add
  rw [beq_iff_eq, natToF64_eq_zero_iff]
  constructor
  · intro h
    have hs : natToF64 c.duration.secs = 0 := by omega
    have hn : natToF64 c.duration.nanos = 0 := by omega
    exact ⟨(natToF64_eq_zero_iff _).mp hs, (natToF64_eq_zero_iff _).mp hn⟩
  · rintro ⟨hs, hn⟩
    rw [hs, hn]
    norm_num [natToF64]

theorem Duration.ble_refl (d : Duration) : Duration.ble d d = true := by
  simp [Duration.ble]

/-! ### Shared witness data -/

/-- A concrete cache used by the witness theorems: one entry under key `0`
with value `7` inserted at instant `1000`, ttl 5 seconds, healthy lock. -/
def sampleCache : HashCache Nat Nat :=
  { cache := fun k => if k = 0 then some (7, 1000) else none,
    duration := { secs := 5, nanos := 0 },
    poisoned := false }

/-! ### Claims -/

/-- C10: `ignore_dur` — the floating-point sum of the duration's whole
seconds and subsecond nanoseconds compared against `0.0` — returns `true`
if and only if the duration is exactly zero; no f64 conversion or rounding
makes a non-zero duration test as zero. -/
theorem claim_ignore_dur_zero_iff {K T : Type} (c : HashCache K T) :
    (c.ignore_dur = true ↔ (c.duration.secs = 0 ∧ c.duration.nanos = 0)) ∧
    ((c.duration.secs ≠ 0 ∨ c.duration.nanos ≠ 0) → c.ignore_dur = false) := by
  refine ⟨ignore_dur_iff c, fun h => ?_⟩
  rcases hb : c.ignore_dur with _ | _
  · rfl
  · rcases (ignore_dur_iff c).mp hb with ⟨hs, hn⟩
    rcases h with h | h
    · exact absurd hs h
    · exact absurd hn h

/-- C9: the read-side operations `get` and `get_all` leave the store
completely unchanged — every entry (expired ones included) keeps its value
and its insertion timestamp, and the whole cache state is untouched. -/
theorem claim_read_ops_no_mutation {K T : Type} (c : HashCache K T)
    (now : Instant) (key : K) :
    (∀ k v t, c.cache k = some (v, t) → ((c.get now key).2).cache k = some (v, t)) ∧
    (∀ k v t, c.cache k = some (v, t) → ((c.get_all now).2).cache k = some (v, t)) ∧
    (c.get now key).2 = c ∧ (c.get_all now).2 = c := by
  exact ⟨fun k v t h => h, fun k v t h => h, rfl, rfl⟩

/-- C9 witness: the read operations leave `sampleCache` unchanged. -/
theorem claim_read_ops_no_mutation_witness :
    (∀ k v t, sampleCache.cache k = some (v, t) →
      ((sampleCache.get 2000 0).2).cache k = some (v, t)) ∧
    (∀ k v t, sampleCache.cache k = some (v, t) →
      ((sampleCache.get_all 2000).2).cache k = some (v, t)) ∧
    (sampleCache.get 2000 0).2 = sampleCache ∧
    (sampleCache.get_all 2000).2 = sampleCache :=
  claim_read_ops_no_mutation sampleCache 2000 0

/-- C8: the ttl is fixed at construction (`new` stores the given duration,
`from` the zero sentinel) and every operation leaves it unchanged. -/
theorem claim_duration_immutable {K T : Type} (d : Duration)
    (m : K → Option (T × Instant)) [DecidableEq K] (c : HashCache K T)
    (now : Instant) (key : K) (val : T) :
    (HashCache.new (K := K) (T := T) d).duration = d ∧
    (HashCache.fromMap m).duration = Duration.new 0 0 ∧
    (c.get now key).2.duration = c.duration ∧
    (c.get_all now).2.duration = c.duration ∧
    (c.insert now key val).2.duration = c.duration ∧
    (c.remove key).2.duration = c.duration ∧
    c.clear.2.duration = c.duration := by
  refine ⟨rfl, rfl, rfl, rfl, ?_, ?_, ?_⟩ <;>
    cases hp : c.poisoned <;>
      simp [HashCache.insert, HashCache.remove, HashCache.clear, HashCache.writer, hp]

/-- C7: the only failure mode is lock poisoning, surfaced as a typed
`CachePoisonedError` whose message distinguishes read-mode from write-mode
acquisition; on a healthy lock every operation succeeds, with absent keys
reported as `Ok(None)`, never as errors. -/
theorem claim_poison_only_failure {K T : Type} [DecidableEq K] (c : HashCache K T)
    (now : Instant) (key : K) (val : T) :
    readGuardMsg ≠ writeGuardMsg ∧
    (c.poisoned = true →
      c.reader = .error ⟨readGuardMsg⟩ ∧
      c.writer = .error ⟨writeGuardMsg⟩ ∧
      (c.get now key).1 = .error ⟨readGuardMsg⟩ ∧
      (c.get_all now).1 = .error ⟨readGuardMsg⟩ ∧
      (c.insert now key val).1 = .error ⟨writeGuardMsg⟩ ∧
      (c.remove key).1 = .error ⟨writeGuardMsg⟩ ∧
      c.clear.1 = .error ⟨writeGuardMsg⟩) ∧
    (c.poisoned = false →
      c.reader = .ok c.cache ∧
      c.writer = .ok c.cache ∧
      (∃ r, (c.get now key).1 = .ok r) ∧
      (∃ r, (c.get_all now).1 = .ok r) ∧
      (∃ r, (c.insert now key val).1 = .ok r) ∧
      (∃ r, (c.remove key).1 = .ok r) ∧
      c.clear.1 = .ok () ∧
      (c.cache key = none →
        (c.get now key).1 = .ok none ∧ (c.remove key).1 = .ok none)) := by
  obtain ⟨st, d, p⟩ := c
  refine ⟨by simp [readGuardMsg, writeGuardMsg], fun hp => ?_, fun hp => ?_⟩
  · replace hp : p = true := hp
    subst hp
    exact ⟨rfl, rfl, rfl, rfl, rfl, rfl, rfl⟩
  · replace hp : p = false := hp
    subst hp
    refine ⟨rfl, rfl, ⟨_, rfl⟩, ⟨_, rfl⟩, ⟨_, rfl⟩, ⟨_, rfl⟩, rfl, fun hk => ?_⟩
    replace hk : st key = none := hk
    constructor
    · simp [HashCache.get, HashCache.reader, Except.map, hk]
    · simp [HashCache.remove, HashCache.writer, Except.map, hk]

/-- C7 witness: on the poisoned twin of `sampleCache`, `clear` fails with the
write-guard error; on healthy `sampleCache`, the absent key `1` yields
`Ok(None)` from both `get` and `remove`. -/
theorem claim_poison_only_failure_witness :
    ({ sampleCache with poisoned := true } : HashCache Nat Nat).clear.1
        = .error ⟨writeGuardMsg⟩ ∧
    (sampleCache.get 2000 1).1 = .ok none ∧
    (sampleCache.remove 1).1 = .ok none :=
  ⟨((claim_poison_only_failure { sampleCache with poisoned := true } 2000 1 9).2.1
      rfl).2.2.2.2.2.2,
   (((claim_poison_only_failure sampleCache 2000 1 9).2.2 rfl).2.2.2.2.2.2.2 rfl).1,
   (((claim_poison_only_failure sampleCache 2000 1 9).2.2 rfl).2.2.2.2.2.2.2 rfl).2⟩

/-- C1: on a healthy lock, `get` returns `Ok(None)` for an absent key; for a
key holding value `v` inserted at `t` it returns `Ok(Some v)` if and only if
the ttl is the zero sentinel or the elapsed time since `t` is at most the
ttl, returns `Ok(None)` otherwise, and the boundary `elapsed = ttl` counts
as live. -/
theorem claim_get_expiry {K T : Type} (c : HashCache K T) (now : Instant)
    (key : K) (hp : c.poisoned = false) :
    (c.cache key = none → (c.get now key).1 = .ok none) ∧
    (∀ v t, c.cache key = some (v, t) →
      ((c.get now key).1 = .ok (some v) ↔
        ((c.duration.secs = 0 ∧ c.duration.nanos = 0) ∨
          Duration.ble (Instant.elapsed t now) c.duration = true)) ∧
      ((¬(c.duration.secs = 0 ∧ c.duration.nanos = 0) ∧
          Duration.ble (Instant.elapsed t now) c.duration = false) →
        (c.get now key).1 = .ok none) ∧
      (Instant.elapsed t now = c.duration → (c.get now key).1 = .ok (some v))) := by
  obtain ⟨st, d, p⟩ := c
  replace hp : p = false := hp
  subst hp
  constructor
  · intro h
    replace h : st key = none := h
    simp [HashCache.get, HashCache.reader, Except.map, h]
  · intro v t h
    replace h : st key = some (v, t) := h
    have hzi := ignore_dur_iff (HashCache.mk st d false)
    have hred : ((HashCache.mk st d false).get now key).1
        = .ok (if (HashCache.mk st d false).ignore_dur
              || Duration.ble (Instant.elapsed t now) d then some v else none) := by
      simp [HashCache.get, HashCache.reader, Except.map, h]
    refine ⟨?_, fun hx => ?_, fun he => ?_⟩
    · rw [hred]
      by_cases hz : d.secs = 0 ∧ d.nanos = 0
      · have hb1 : (HashCache.mk st d false).ignore_dur = true := hzi.mpr hz
        simp [hb1, hz]
      · have hb1 : (HashCache.mk st d false).ignore_dur = false := by
          rcases hb : (HashCache.mk st d false).ignore_dur
          · rfl
          · exact absurd (hzi.mp hb) hz
        rcases hb2 : Duration.ble (Instant.elapsed t now) d <;> simp [hb1, hb2, hz]
    · obtain ⟨hz, hb2⟩ := hx
      have hb1 : (HashCache.mk st d false).ignore_dur = false := by
        rcases hb : (HashCache.mk st d false).ignore_dur
        · rfl
        · exact absurd (hzi.mp hb) hz
      rw [hred, hb1]
      replace hb2 : Duration.ble (Instant.elapsed t now) d = false := hb2
      rw [hb2]
      rfl
    · have hb2 : Duration.ble (Instant.elapsed t now) d = true := by
        rw [he]
        exact Duration.ble_refl d
      rw [hred, hb2]
      simp

/-- C1 witness: in `sampleCache` (ttl 5 s, key `0` inserted at instant 1000)
`get` at instant 2000 returns `Ok(Some 7)`, and `get` 7 s later returns
`Ok(None)`. -/
theorem claim_get_expiry_witness :
    sampleCache.poisoned = false ∧
    (sampleCache.get 2000 0).1 = .ok (some 7) ∧
    (sampleCache.get 7000001000 0).1 = .ok none :=
  ⟨rfl,
   ((claim_get_expiry sampleCache 2000 0 rfl).2 7 1000 rfl).1.mpr (Or.inr (by decide)),
   ((claim_get_expiry sampleCache 7000001000 0 rfl).2 7 1000 rfl).2.1 (by decide)⟩


/-- C2: on a healthy lock, `get_all` returns a fresh mapping holding exactly
the store entries that pass the same liveness test as `get`: with a non-zero
ttl it never includes an entry whose age exceeds the ttl, and with the zero
sentinel it includes every entry of the store. -/
theorem claim_get_all_filter {K T : Type} (c : HashCache K T) (now : Instant)
    (hp : c.poisoned = false) :
    ∃ m, (c.get_all now).1 = .ok m ∧
      (∀ k v, m k = some v ↔ ∃ t, c.cache k = some (v, t) ∧
        ((c.duration.secs = 0 ∧ c.duration.nanos = 0) ∨
          Duration.ble (Instant.elapsed t now) c.duration = true)) ∧
      (∀ k v t, c.cache k = some (v, t) →
        ¬(c.duration.secs = 0 ∧ c.duration.nanos = 0) →
        Duration.ble (Instant.elapsed t now) c.duration = false → m k = none) ∧
      ((c.duration.secs = 0 ∧ c.duration.nanos = 0) →
        ∀ k, m k = Option.map Prod.fst (c.cache k)) := by
  obtain ⟨st, d, p⟩ := c
  replace hp : p = false := hp
  subst hp
  have hzi := ignore_dur_iff (HashCache.mk st d false)
  have hb1false : ¬(d.secs = 0 ∧ d.nanos = 0) →
      (HashCache.mk st d false).ignore_dur = false := by
    intro hz
    rcases hb : (HashCache.mk st d false).ignore_dur
    · rfl
    · exact absurd (hzi.mp hb) hz
  refine ⟨_, rfl, ?_, ?_, ?_⟩
  · intro k v
    dsimp only
    rcases hk : st k with _ | ⟨f, created⟩
    · simp [hk]
    · cases hb : ((HashCache.mk st d false).ignore_dur
          || Duration.ble (Instant.elapsed created now) d)
      · rw [Bool.or_eq_false_iff] at hb
        have hC : ¬((d.secs = 0 ∧ d.nanos = 0)
            ∨ Duration.ble (Instant.elapsed created now) d = true) := by
          rintro (hz | hbt)
          · rw [hzi.mpr hz] at hb
            simp at hb
          · rw [hbt] at hb
            simp at hb
        simp [hC]
        constructor
        · rintro ⟨h | h, hfv⟩
          · simp [hb.1] at h
          · simp [hb.2] at h
        · rintro ⟨t, ⟨hfv, ht⟩, hc⟩
          subst ht
          exact absurd hc hC
      · rw [Bool.or_eq_true] at hb
        have hC : ((d.secs = 0 ∧ d.nanos = 0)
            ∨ Duration.ble (Instant.elapsed created now) d = true) := by
          rcases hb with hb | hb
          · exact Or.inl (hzi.mp hb)
          · exact Or.inr hb
        simp [hC]
        constructor
        · rintro ⟨h, hfv⟩
          exact ⟨created, ⟨hfv, rfl⟩, hC⟩
        · rintro ⟨t, ⟨hfv, ht⟩, hx⟩
          exact ⟨hb, hfv⟩
  · intro k v t hk hz hb2
    replace hk : st k = some (v, t) := hk
    have hb1 := hb1false hz
    replace hb2 : Duration.ble (Instant.elapsed t now) d = false := hb2
    dsimp only
    rw [hk, hb1]
    simp [hb2]
  · intro hz k
    have hb1 : (HashCache.mk st d false).ignore_dur = true := hzi.mpr hz
    dsimp only
    rcases hk : st k with _ | ⟨f, created⟩ <;> simp [hk, hb1]

/-- C2 witness: `get_all` on `sampleCache` at instant 2000 yields a mapping
holding key `0` (live, value 7) and nothing at key `1`, and at an instant 7 s
after insertion (entry expired) it yields a mapping empty at key `0`. -/
theorem claim_get_all_filter_witness :
    sampleCache.poisoned = false ∧
    (∃ m, (sampleCache.get_all 2000).1 = .ok m ∧ m 0 = some 7 ∧ m 1 = none) ∧
    (∃ m, (sampleCache.get_all 7000001000).1 = .ok m ∧ m 0 = none) := by
  refine ⟨rfl, ?_, ?_⟩
  · obtain ⟨m, hm, hiff, _, _⟩ := claim_get_all_filter sampleCache 2000 rfl
    refine ⟨m, hm, (hiff 0 7).mpr ⟨1000, rfl, Or.inr (by decide)⟩, ?_⟩
    rcases hm1 : m 1 with _ | v
    · rfl
    · obtain ⟨t, habs, _⟩ := (hiff 1 v).mp hm1
      exact absurd habs (by simp [sampleCache])
  · obtain ⟨m, hm, _, hnone, _⟩ := claim_get_all_filter sampleCache 7000001000 rfl
    exact ⟨m, hm, hnone 0 7 1000 rfl (by decide) (by decide)⟩

/-- C3: on a healthy lock, `insert` stamps a clone of the value with the
current instant and stores it, unconditionally overwriting any existing
entry (expired or not); it returns `Ok(Some previous)` when an entry existed
and `Ok(None)` otherwise, so a second insert under the same key leaves
exactly one entry with the new value and a refreshed timestamp and returns
the first value. -/
theorem claim_insert_overwrite {K T : Type} [DecidableEq K] (c : HashCache K T)
    (now : Instant) (key : K) (val : T) (hp : c.poisoned = false) :
    ∃ c2, c.insert now key val = (.ok (Option.map Prod.fst (c.cache key)), c2) ∧
      c2.cache key = some (val, now) ∧
      (∀ k, k ≠ key → c2.cache k = c.cache k) ∧
      c2.duration = c.duration ∧ c2.poisoned = false ∧
      (∀ v2 now2, ((c2.insert now2 key v2).1 = .ok (some val)) ∧
        ((c2.insert now2 key v2).2).cache key = some (v2, now2) ∧
        (∀ k, k ≠ key → ((c2.insert now2 key v2).2).cache k = c.cache k)) := by
  obtain ⟨st, d, p⟩ := c
  replace hp : p = false := hp
  subst hp
  refine ⟨_, rfl, by simp, fun k hk => by simp [hk], rfl, rfl, fun v2 now2 => ?_⟩
  refine ⟨?_, ?_, fun k hk => ?_⟩
  · simp [HashCache.insert, HashCache.writer]
  · simp [HashCache.insert, HashCache.writer]
  · simp [HashCache.insert, HashCache.writer, hk]

/-- C3 witness: inserting `9` under the existing key `0` of `sampleCache`
returns the previous value `7` and overwrites the entry with `(9, 3000)`;
a further insert of `4` returns `9`. -/
theorem claim_insert_overwrite_witness :
    sampleCache.poisoned = false ∧
    ∃ c2, sampleCache.insert 3000 0 9
        = (.ok (Option.map Prod.fst (sampleCache.cache 0)), c2) ∧
      c2.cache 0 = some (9, 3000) ∧
      (c2.insert 4000 0 4).1 = .ok (some 9) := by
  obtain ⟨c2, heq, hkey, _, _, _, hsecond⟩ := claim_insert_overwrite sampleCache 3000 0 9 rfl
  exact ⟨rfl, c2, heq, hkey, (hsecond 4 4000).1⟩

/-- C4: on a healthy lock, `remove` unconditionally deletes the entry for the
key if present and returns `Ok(Some value)` — even when that entry is already
expired, since no expiry test is made — and returns `Ok(None)`, never an
error, when the key is absent. -/
theorem claim_remove_unconditional {K T : Type} [DecidableEq K] (c : HashCache K T)
    (key : K) (hp : c.poisoned = false) :
    ∃ c2, c.remove key = (.ok (Option.map Prod.fst (c.cache key)), c2) ∧
      c2.cache key = none ∧
      (∀ k, k ≠ key → c2.cache k = c.cache k) ∧
      (∀ v t, c.cache key = some (v, t) → (c.remove key).1 = .ok (some v)) ∧
      (c.cache key = none → (c.remove key).1 = .ok none) := by
  obtain ⟨st, d, p⟩ := c
  replace hp : p = false := hp
  subst hp
  refine ⟨_, rfl, by simp, fun k hk => by simp [hk], fun v t h => ?_, fun h => ?_⟩
  · replace h : st key = some (v, t) := h
    simp [HashCache.remove, HashCache.writer, h]
  · replace h : st key = none := h
    simp [HashCache.remove, HashCache.writer, h]

/-- C4 witness: removing the live key `0` of `sampleCache` returns `Ok(Some 7)`
and deletes it; removing the absent key `1` returns `Ok(None)`. -/
theorem claim_remove_unconditional_witness :
    sampleCache.poisoned = false ∧
    (∃ c2, sampleCache.remove 0 = (.ok (Option.map Prod.fst (sampleCache.cache 0)), c2) ∧
      c2.cache 0 = none ∧ (sampleCache.remove 0).1 = .ok (some 7)) ∧
    (sampleCache.remove 1).1 = .ok none := by
  obtain ⟨c2, heq, hkey, _, hsome, _⟩ := claim_remove_unconditional sampleCache 0 rfl
  obtain ⟨_, _, _, _, _, hnone⟩ := claim_remove_unconditional sampleCache 1 rfl
  exact ⟨rfl, ⟨c2, heq, hkey, hsome 7 1000 rfl⟩, hnone rfl⟩

/-- C5: on a healthy lock, `clear` unconditionally removes every entry, and a
`get_all` performed on the resulting state (no intervening mutation) returns
the empty mapping. -/
theorem claim_clear_then_get_all_empty {K T : Type} (c : HashCache K T)
    (now : Instant) (hp : c.poisoned = false) :
    ∃ c2, c.clear = (.ok (), c2) ∧ (∀ k, c2.cache k = none) ∧
      (c2.get_all now).1 = .ok (fun _ => none) := by
  obtain ⟨st, d, p⟩ := c
  replace hp : p = false := hp
  subst hp
  exact ⟨_, rfl, fun k => rfl, rfl⟩

/-- C5 witness: clearing `sampleCache` empties the store and a subsequent
`get_all` returns the empty mapping. -/
theorem claim_clear_then_get_all_empty_witness :
    sampleCache.poisoned = false ∧
    ∃ c2, sampleCache.clear = (.ok (), c2) ∧ (∀ k, c2.cache k = none) ∧
      (c2.get_all 5000).1 = .ok (fun _ => none) :=
  ⟨rfl, claim_clear_then_get_all_empty sampleCache 5000 rfl⟩

/-- C6: a cache built by `from` has its ttl forced to `Duration::new(0, 0)`,
the "never expire" sentinel; and in any healthy cache whose ttl is that
sentinel, a value inserted at any instant is returned by `get` at every later
instant, however much time has elapsed. -/
theorem claim_from_zero_never_expire {K T : Type} [DecidableEq K]
    (m : K → Option (T × Instant)) (c : HashCache K T)
    (hz : c.duration.secs = 0 ∧ c.duration.nanos = 0) (hp : c.poisoned = false) :
    (HashCache.fromMap m).duration = Duration.new 0 0 ∧
    (HashCache.fromMap m).duration.secs = 0 ∧
    (HashCache.fromMap m).duration.nanos = 0 ∧
    (∀ key val now1 now2,
      (((c.insert now1 key val).2).get now2 key).1 = .ok (some val)) := by
  obtain ⟨st, d, p⟩ := c
  replace hp : p = false := hp
  subst hp
  replace hz : d.secs = 0 ∧ d.nanos = 0 := hz
  refine ⟨rfl, rfl, rfl, fun key val now1 now2 => ?_⟩
  have hb1 : (HashCache.mk (fun k => if k = key then some (val, now1) else st k) d
      false).ignore_dur = true :=
    (ignore_dur_iff _).mpr hz
  simp [HashCache.insert, HashCache.writer, HashCache.get, HashCache.reader,
    Except.map, hb1]

/-- C6 witness: a cache built by `from` over an empty map has the zero ttl;
inserting `7` at instant 5 then reading an aeon later still yields
`Ok(Some 7)`. -/
theorem claim_from_zero_never_expire_witness :
    (HashCache.fromMap (fun _ => none) : HashCache Nat Nat).duration.secs = 0 ∧
    (HashCache.fromMap (fun _ => none) : HashCache Nat Nat).duration.nanos = 0 ∧
    (HashCache.fromMap (fun _ => none) : HashCache Nat Nat).poisoned = false ∧
    ((((HashCache.fromMap (fun _ => none) : HashCache Nat Nat).insert 5 0 7).2).get
        999999999999999999 0).1 = .ok (some 7) :=
  ⟨rfl, rfl, rfl,
   (claim_from_zero_never_expire (fun _ => none)
      (HashCache.fromMap (fun _ => none) : HashCache Nat Nat)
      ⟨rfl, rfl⟩ rfl).2.2.2 0 7 5 999999999999999999⟩
